import Mathlib

/-!
Verification of the result-merging engine of `stallscan`.

The definitions below are a shallow embedding of
`src/server/services/result_merger.py` (class `ResultMerger`, namespace
`Services` here) and `src/server/utils/merger.py` (the second class
`ResultMerger`, namespace `Utils` here; this is the one `main.py`
instantiates), together with the Pydantic data model of
`src/server/models/schemas.py`.

Modelling conventions:
* Python `str` is Lean `String`; Python's Unicode-aware `.lower()`,
  `.strip()`, `.isalnum()` are modelled on their ASCII fragment by
  `Char.toLower`, `Char.isWhitespace`, `Char.isAlphanum` (every string
  in the repository's data path is ASCII).
* Python floats (`0.85`, `0.9`, `difflib` ratios) are modelled as exact
  rationals `ℚ`.
* `difflib.SequenceMatcher(None, a, b).ratio()` (for `b` shorter than the
  200-character autojunk limit) is `2*M/(|a|+|b|)` where `M` is the total
  size of the Ratcliff/Obershelp matching blocks: recursively take the
  longest matching block, earliest in `a` and then earliest in `b` among
  ties, and recurse on both sides.  `seqRatio` below implements exactly
  that.
* Pydantic `BoothData` has `company_name : str`, `booth : str`,
  `size : Optional[str] = ""`; so only `size` can be `None`, modelled as
  `Option String`.  Python truthiness of `size` is `sizeTruthy`.
-/

set_option maxRecDepth 100000

namespace StallScan

/-- Composition of dropWhile and reverse implementing Python's
`str.strip(chars)`: remove the maximal run of characters satisfying `p`
from both ends. -/
def pyStripList (p : Char → Bool) (l : List Char) : List Char :=
  ((l.dropWhile p).reverse.dropWhile p).reverse

/-- Python `str.strip(chars)` on `String`. -/
def pyStrip (p : Char → Bool) (s : String) : String :=
  ⟨pyStripList p s.data⟩

/-- Python `str.strip()` (whitespace on both ends). -/
def pyTrim (s : String) : String :=
  pyStrip Char.isWhitespace s

/-- Python `str.lower()` (ASCII fragment), as a kernel-reducible map over
the character list. -/
def strToLower (s : String) : String :=
  ⟨s.data.map Char.toLower⟩

/-- Python `str.upper()` (ASCII fragment). -/
def strToUpper (s : String) : String :=
  ⟨s.data.map Char.toUpper⟩

/-- Python `s.split(' ')`-style splitting on the space character,
producing empty pieces for adjacent spaces. -/
def splitOnSpace : List Char → List (List Char)
  | [] => [[]]
  | c :: rest =>
    if c = ' ' then [] :: splitOnSpace rest
    else
      match splitOnSpace rest with
      | w :: ws => (c :: w) :: ws
      | [] => [[c]]

/-- Join word lists with single spaces. -/
def joinWithSpace : List (List Char) → List Char
  | [] => []
  | [w] => w
  | w :: ws => w ++ ' ' :: joinWithSpace ws

/-- Python `' '.join(s.split())` for a string whose only whitespace is the
space character: collapse runs of spaces and trim the ends. -/
def collapseSpaces (s : String) : String :=
  ⟨joinWithSpace ((splitOnSpace s.data).filter (· ≠ []))⟩

/-- Python `s[:-n]` for `n ≤ len s`: drop the last `n` characters. -/
def strDropRight (s : String) (n : Nat) : String :=
  ⟨s.data.take (s.data.length - n)⟩

/-- Python `needle in hay` (substring test). -/
def isSubstr (needle hay : String) : Bool :=
  (List.range (hay.data.length + 1)).any fun i => needle.data.isPrefixOf (hay.data.drop i)

/-- Python `s[-n:]` for `n ≤ len s`: the last `n` characters. -/
def strTakeRight (s : String) (n : Nat) : String :=
  ⟨s.data.drop (s.data.length - n)⟩

/-- Python `s[:n]`: the first `n` characters. -/
def strTake (s : String) (n : Nat) : String :=
  ⟨s.data.take n⟩

/-- Length of the common prefix of two character lists (maximal run of a
matching block). -/
def commonRun : List Char → List Char → Nat
  | a :: as, b :: bs => if a = b then commonRun as bs + 1 else 0
  | _, _ => 0

/-- Model of difflib's `find_longest_match` (no junk): the triple `(i, j, k)` of
the longest matching block `a[i:i+k] == b[j:j+k]`, preferring the
smallest `i` and then the smallest `j` among blocks of maximal size. -/
def bestMatch (a b : List Char) : Nat × Nat × Nat :=
  (List.range a.length).foldl
    (fun acc i =>
      (List.range b.length).foldl
        (fun acc j =>
          let k := commonRun (a.drop i) (b.drop j)
          if acc.2.2 < k then (i, j, k) else acc)
        acc)
    (0, 0, 0)

/-- Total size `M` of `difflib`'s matching blocks: recursively split at the
longest match.  The `fuel` argument (any value `≥ a.length` works, the
callers pass `a.length + b.length`) makes the recursion structural. -/
def matchTotal : Nat → List Char → List Char → Nat
  | 0, _, _ => 0
  | fuel + 1, a, b =>
    let m := bestMatch a b
    if m.2.2 = 0 then 0
    else
      matchTotal fuel (a.take m.1) (b.take m.2.1) + m.2.2 +
        matchTotal fuel (a.drop (m.1 + m.2.2)) (b.drop (m.2.1 + m.2.2))

/-- Model of `difflib.SequenceMatcher(None, a, b).ratio()` as an exact rational
`2*M / (|a|+|b|)` (built with `mkRat`, which the kernel can evaluate;
`difflib` returns `1.0` when both strings are empty). -/
def seqRatio (a b : List Char) : ℚ :=
  if a.length + b.length = 0 then 1
  else mkRat (2 * matchTotal (a.length + b.length) a b) (a.length + b.length)

/-- Source `models/schemas.py`: `class BoothData(BaseModel)` with
`company_name: str`, `booth: str`, `size: Optional[str] = ""`. -/
structure BoothData where
  company_name : String
  booth : String
  size : Option String
deriving DecidableEq

instance : Inhabited BoothData := ⟨⟨"", "", none⟩⟩

/-- Python truthiness of the `Optional[str]` field `size`:
`None` and `""` are falsy. -/
def sizeTruthy : Option String → Bool
  | none => false
  | some s => s ≠ ""

/-- Source `models/schemas.py`: `class ExtractionResult(BaseModel)` with
`total_booths: int`, `booths: List[BoothData]`. -/
structure ExtractionResult where
  total_booths : Int
  booths : List BoothData
deriving DecidableEq

namespace Services

/-- Source `ResultMerger.__init__`: `similarity_threshold: float = 0.85`. -/
def similarity_threshold : ℚ := mkRat 85 100

/-- Source `result_merger.py`, `_normalize_company_name`: the fixed suffix list, in
source order. -/
def suffixes : List String :=
  [" inc", " inc.", " ltd", " ltd.", " llc", " corp", " corp.",
   " company", " co", " co.", " group", " international", " intl"]

/-- Source `result_merger.py`, `_normalize_company_name`. -/
def _normalize_company_name (name : String) : String :=
  if name = "" then ""
  else
    let name := pyTrim name
    let name := pyTrim (pyStrip (· = '&') (pyStrip (· = '-') (pyStrip (· = '*') name)))
    let normalized := pyTrim (strToLower name)
    let normalized := suffixes.foldl
      (fun n suffix =>
        if suffix.data.isSuffixOf n.data then pyTrim (strDropRight n suffix.data.length) else n)
      normalized
    let normalized : String := ⟨normalized.data.map (fun c => if c.isAlphanum then c else ' ')⟩
    collapseSpaces normalized

/-- Source `result_merger.py`, `_normalize_booth_number`. -/
def _normalize_booth_number (booth : String) : String :=
  if booth = "" then ""
  else
    let normalized := pyTrim (strToUpper booth)
    ⟨normalized.data.filter fun c => ¬ (c = ' ' ∨ c = '-' ∨ c = '_')⟩

/-- Source `result_merger.py`, `_calculate_similarity`:
`SequenceMatcher(None, str1.lower(), str2.lower()).ratio()`, guarded to
`0.0` when either string is empty. -/
def _calculate_similarity (str1 str2 : String) : ℚ :=
  if str1 = "" ∨ str2 = "" then 0
  else seqRatio (strToLower str1).data (strToLower str2).data

/-- Source `result_merger.py`, `_are_companies_similar`. -/
def _are_companies_similar (name1 name2 : String) : Bool :=
  let norm1 := _normalize_company_name name1
  let norm2 := _normalize_company_name name2
  if norm1 = "" ∨ norm2 = "" then false
  else if norm1 = norm2 then true
  else similarity_threshold ≤ _calculate_similarity norm1 norm2

/-- Source `result_merger.py`, `_are_booths_similar`. -/
def _are_booths_similar (booth1 booth2 : String) : Bool :=
  let norm1 := _normalize_booth_number booth1
  let norm2 := _normalize_booth_number booth2
  if norm1 = "" ∨ norm2 = "" then false
  else norm1 = norm2

/-- Source `result_merger.py`, `_is_fragment_of`. -/
def _is_fragment_of (short_name long_name : String) : Bool :=
  if short_name = "" ∨ long_name = "" then false
  else
    let short_norm := _normalize_company_name short_name
    let long_norm := _normalize_company_name long_name
    if short_norm.length < 3 ∨ long_norm.length < 3 then false
    else if isSubstr short_norm long_norm || isSubstr long_norm short_norm then true
    else if 4 ≤ short_norm.length ∧ 4 ≤ long_norm.length then
      if strTake short_norm 4 = strTake long_norm 4 ∨
          strTakeRight short_norm 4 = strTakeRight long_norm 4 then true
      else false
    else false

/-- The duplicate test of the grouping sweep in `merge_extraction_results`
(lines 172–186): the four-way disjunction deciding that `booth2` joins
`booth1`'s group. -/
def joinCond (booth1 booth2 : BoothData) : Bool :=
  let company_match := _are_companies_similar booth1.company_name booth2.company_name
  let booth_match := _are_booths_similar booth1.booth booth2.booth
  let is_fragment := _is_fragment_of booth2.company_name booth1.company_name
  (company_match && booth_match) ||
    (company_match && (booth1.booth = "" || booth2.booth = "")) ||
    (company_match && decide (mkRat 9 10 < _calculate_similarity booth1.company_name booth2.company_name)) ||
    is_fragment

/-- The inner loop of the grouping sweep: scan the records after the seed
(as `(index, record)` pairs), adding every unconsumed record satisfying
`joinCond` to the seed's group and marking it consumed.  Returns the
gathered group tail and the updated consumed set. -/
def gatherGroup (booth1 : BoothData) :
    List (Nat × BoothData) → List Nat → List BoothData × List Nat
  | [], processed => ([], processed)
  | (j, booth2) :: rest, processed =>
    if j ∈ processed then gatherGroup booth1 rest processed
    else if joinCond booth1 booth2 then
      (booth2 :: (gatherGroup booth1 rest (j :: processed)).1,
        (gatherGroup booth1 rest (j :: processed)).2)
    else gatherGroup booth1 rest processed

/-- The outer loop of the grouping sweep: each unconsumed record seeds a
new group, gathered by `gatherGroup` from the records after it. -/
def sweepAux : List (Nat × BoothData) → List Nat → List (List BoothData)
  | [], _ => []
  | (i, booth1) :: rest, processed =>
    if i ∈ processed then sweepAux rest processed
    else
      (booth1 :: (gatherGroup booth1 rest (i :: processed)).1) ::
        sweepAux rest (gatherGroup booth1 rest (i :: processed)).2

/-- Source `merge_extraction_results` lines 154–191: partition `all_booths` into
duplicate groups by the single left-to-right sweep. -/
def boothGroups (all_booths : List BoothData) : List (List BoothData) :=
  sweepAux all_booths.enum []

/-- The completeness score of `_merge_booth_data` (lines 101–108). -/
def score (booth : BoothData) : Nat :=
  (if booth.company_name ≠ "" ∧ 0 < (pyTrim booth.company_name).length then
    (pyTrim booth.company_name).length
  else 0) +
  (if booth.booth ≠ "" ∧ 0 < (pyTrim booth.booth).length then
    (pyTrim booth.booth).length * 2
  else 0) +
  (match booth.size with
  | none => 0
  | some s => if s ≠ "" ∧ 0 < (pyTrim s).length then 10 else 0)

/-- The best-booth selection loop of `_merge_booth_data` (lines 98–112):
`best_booth = booths[0]`, `best_score = 0`, strict improvement. -/
def selectLoop : List BoothData → BoothData → Nat → BoothData
  | [], best, _ => best
  | booth :: rest, best, best_score =>
    if best_score < score booth then selectLoop rest booth (score booth)
    else selectLoop rest best best_score

/-- One iteration of the fill-in loop of `_merge_booth_data`
(lines 122–128): each field still falsy on `merged` is taken from `booth`
when `booth` has it. -/
def fillStep (merged booth : BoothData) : BoothData :=
  let merged :=
    if merged.company_name = "" ∧ booth.company_name ≠ "" then
      { merged with company_name := booth.company_name }
    else merged
  let merged :=
    if merged.booth = "" ∧ booth.booth ≠ "" then { merged with booth := booth.booth }
    else merged
  if ¬ sizeTruthy merged.size ∧ sizeTruthy booth.size then { merged with size := booth.size }
  else merged

/-- The fill-in loop of `_merge_booth_data` (lines 122–128). -/
def fillLoop : List BoothData → BoothData → BoothData
  | [], merged => merged
  | booth :: rest, merged => fillLoop rest (fillStep merged booth)

/-- Source `result_merger.py`, `_merge_booth_data`. -/
def _merge_booth_data : List BoothData → Option BoothData
  | [] => none
  | [booth] => some booth
  | booth0 :: rest =>
    let best_booth := selectLoop (booth0 :: rest) booth0 0
    some (fillLoop (booth0 :: rest)
      ⟨best_booth.company_name, best_booth.booth, best_booth.size⟩)

/-- Source `merge_extraction_results` lines 149–205 applied to the flattened
record list: group, resolve each group, keep resolved records with a
truthy `company_name`. -/
def mergeAllBooths (all_booths : List BoothData) : ExtractionResult :=
  if all_booths = [] then { total_booths := 0, booths := [] }
  else
    let booth_groups := boothGroups all_booths
    let merged_booths := booth_groups.filterMap fun group =>
      match _merge_booth_data group with
      | some merged_booth =>
        if merged_booth.company_name ≠ "" then some merged_booth else none
      | none => none
    { total_booths := (merged_booths.length : Int), booths := merged_booths }

/-- Source `result_merger.py`, `merge_extraction_results`. -/
def merge_extraction_results (results : List ExtractionResult) : ExtractionResult :=
  if results = [] then { total_booths := 0, booths := [] }
  else mergeAllBooths (results.map (·.booths)).flatten

/-- Source `result_merger.py`, `get_merge_statistics` (the returned dict). -/
structure MergeStatistics where
  original_total : Int
  merged_total : Int
  duplicates_removed : Int
  duplicate_rate : ℚ
  sources_merged : Nat
deriving DecidableEq

/-- Source `result_merger.py`, `get_merge_statistics`. -/
def get_merge_statistics (original_results : List ExtractionResult)
    (merged_result : ExtractionResult) : MergeStatistics :=
  let total_original : Int := (original_results.map (·.total_booths)).sum
  let total_merged := merged_result.total_booths
  { original_total := total_original
    merged_total := total_merged
    duplicates_removed := total_original - total_merged
    duplicate_rate :=
      if 0 < total_original then ((total_original - total_merged : Int) : ℚ) / (total_original : ℚ)
      else 0
    sources_merged := original_results.length }

end Services

namespace Utils

/-- Source `utils/merger.py` line 27: the placeholder list
`['', 'none', 'null', 'n/a']`. -/
def placeholders : List String := ["", "none", "null", "n/a"]

/-- Sort key order of `utils/merger.py` lines 44–47:
Python tuple comparison on `(x.booth or "", x.company_name or "")`. -/
def sortRel (x y : BoothData) : Prop :=
  x.booth < y.booth ∨ (x.booth = y.booth ∧ x.company_name ≤ y.company_name)

instance : DecidableRel sortRel := fun x y => by unfold sortRel; infer_instance

/-- The inner loop of `utils/merger.py` `merge_extraction_results`
(lines 17–41): filter out placeholder companies and deduplicate by the
`dedup_key`/`combo_key` pair, threading the `seen_combinations` set and the
accumulated `all_booths` list. -/
def processBooths : List BoothData → List String → List BoothData → List String × List BoothData
  | [], seen, acc => (seen, acc)
  | booth :: rest, seen, acc =>
    let company := pyTrim booth.company_name
    let booth_num := pyTrim booth.booth
    let size := pyTrim (booth.size.getD "")
    if company = "" ∨ pyTrim (strToLower company) ∈ placeholders then
      processBooths rest seen acc
    else
      let dedup_key := "company:" ++ strToLower company
      let combo_key := strToLower company ++ ":" ++ strToLower booth_num
      if dedup_key ∉ seen ∧ combo_key ∉ seen then
        processBooths rest (combo_key :: dedup_key :: seen)
          (acc ++ [BoothData.mk company booth_num (some size)])
      else processBooths rest seen acc

/-- The outer loop over `results` (lines 13–41).  In this typed model every
element is a real `ExtractionResult`, so the guard
`if not result or not hasattr(result, 'booths')` never fires. -/
def collectAll : List ExtractionResult → List String → List BoothData → List BoothData
  | [], _, acc => acc
  | result :: rest, seen, acc =>
    collectAll rest (processBooths result.booths seen acc).1
      (processBooths result.booths seen acc).2

/-- Source `utils/merger.py`, `merge_extraction_results` (this is the merger that
`main.py` instantiates): collect, then stable-sort by
`(booth, company_name)`. -/
def merge_extraction_results (results : List ExtractionResult) : ExtractionResult :=
  let sorted_booths := (collectAll results [] []).insertionSort sortRel
  { total_booths := (sorted_booths.length : Int), booths := sorted_booths }

end Utils

/-- The dynamic shape of the `results` argument at the merge drivers' entry
points: either an actual list of extraction results, or a non-iterable
Python value (an `int`, `None`, …). -/
inductive PyBatches where
  | batches (results : List ExtractionResult)
  | nonIterable
deriving DecidableEq

/-- Error kinds observable at the merge drivers' entry points.
`typeError` models Python's built-in `TypeError`, raised by
`for result in results` when `results` is not iterable.
`invalidInput` is modelled from the spec: the `InvalidInput` error kind of
spec §7; no such kind is defined anywhere in the code. -/
inductive MergeError where
  | typeError
  | invalidInput
deriving DecidableEq

/-- Source `services/result_merger.py` `merge_extraction_results` as called on a
dynamic argument: iterating a non-iterable raises `TypeError`
(`for result in results:` at line 146); otherwise the merge runs and no
further statement of the function can raise. -/
def mergeChecked : PyBatches → Except MergeError ExtractionResult
  | .batches results => .ok (Services.merge_extraction_results results)
  | .nonIterable => .error .typeError

/-- Replace a `None` `size` by the empty string, leaving truthy and empty
sizes alone: the record-level coalescing the spec's failure-semantics
sentence describes. -/
def coalesceSize (b : BoothData) : BoothData :=
  ⟨b.company_name, b.booth, some (b.size.getD "")⟩

/-- Map of `coalesceSize` over every record of a batch. -/
def coalesceBatch (r : ExtractionResult) : ExtractionResult :=
  ⟨r.total_booths, r.booths.map coalesceSize⟩

/-- Spec §4.2's wording of `is_fragment`: false if either normalized form
has length below 3; otherwise true iff one normalized form is a substring
of the other, or both have length at least 4 and share the same leading
4 characters or the same trailing 4 characters.  (Written from the spec,
to be compared with the source's `_is_fragment_of`.) -/
def is_fragment_spec (short_name long_name : String) : Bool :=
  let short_norm := Services._normalize_company_name short_name
  let long_norm := Services._normalize_company_name long_name
  if short_norm.length < 3 ∨ long_norm.length < 3 then false
  else
    (isSubstr short_norm long_norm || isSubstr long_norm short_norm) ||
      (decide (4 ≤ short_norm.length) && decide (4 ≤ long_norm.length) &&
        (strTake short_norm 4 = strTake long_norm 4 ||
          strTakeRight short_norm 4 = strTakeRight long_norm 4))

/-- The claim's wording of the completeness score:
`len(trim(company_name)) + 2*len(trim(booth_id)) + 10` if `size` is
non-empty (each term 0 when the field is empty). -/
def specScore (b : BoothData) : Nat :=
  (pyTrim b.company_name).length + 2 * (pyTrim b.booth).length +
    (if (pyTrim (b.size.getD "")).length ≠ 0 then 10 else 0)

/-- The highest completeness score occurring in a group. -/
def groupMaxScore (g : List BoothData) : Nat :=
  (g.map Services.score).foldr max 0

/-- The claim's base record: the earliest record of the group attaining
the highest completeness score. -/
def specBase (g : List BoothData) : BoothData :=
  (g.find? fun b => decide (groupMaxScore g ≤ Services.score b)).getD default

/-! ## Shared helper lemmas -/

/-- Normalizing the empty company name yields the empty string. -/
theorem normalize_empty : Services._normalize_company_name "" = "" := rfl

/-! ## Claim theorems -/

/-- C10: for every input list of extraction results (including the empty
list), the `ExtractionResult` returned by `merge_extraction_results`
satisfies `total_booths == len(booths)`. -/
theorem claim10_total_booths (results : List ExtractionResult) :
    (Services.merge_extraction_results results).total_booths
      = ((Services.merge_extraction_results results).booths.length : Int) := by
  unfold Services.merge_extraction_results Services.mergeAllBooths
  split
  · rfl
  · split <;> rfl

/-- C3 (divergence evaluation): `_calculate_similarity` is not symmetric.
`SequenceMatcher` picks the matching block `"ab"` of `"aba"`/`"babba"`
starting earliest in its *first* argument, and the two orientations leave
different residues: the ratio is `3/4` one way and `1/2` the other. -/
theorem claim3_asymmetry :
    Services._calculate_similarity "aba" "babba" = mkRat 3 4 ∧
    Services._calculate_similarity "babba" "aba" = mkRat 1 2 ∧
    Services._calculate_similarity "aba" "babba" ≠
      Services._calculate_similarity "babba" "aba" := by
  refine ⟨by decide, by decide, by decide⟩

/-- C7: `_is_fragment_of` agrees with the spec's description of
`is_fragment` on every pair of strings, and in particular
`is_fragment("ENVO", "ENVO INTERNATIONAL")` is true while
`is_fragment("AB", "ABCDEFG")` is false. -/
theorem claim7_is_fragment :
    (∀ s l, Services._is_fragment_of s l = is_fragment_spec s l) ∧
    Services._is_fragment_of "ENVO" "ENVO INTERNATIONAL" = true ∧
    Services._is_fragment_of "AB" "ABCDEFG" = false := by
  refine ⟨fun s l => ?_, by decide, by decide⟩
  by_cases hs : s = ""
  · subst hs
    simp [Services._is_fragment_of, is_fragment_spec, normalize_empty]
  · by_cases hl : l = ""
    · subst hl
      simp [Services._is_fragment_of, is_fragment_spec, normalize_empty]
    · have hraw : ¬ (s = "" ∨ l = "") := by simp [hs, hl]
      simp only [Services._is_fragment_of, is_fragment_spec, if_neg hraw]
      split
      · rfl
      · split_ifs with h1 h2 <;> simp_all

/-- C1 (counterexample): the grouping merger of
`services/result_merger.py` keeps a record whose company name is the
placeholder `"n/a"`: merging the single batch
`[{company:"n/a", booth:"A1", size:""}]` returns that record and
`merged_total == 1`, not `0`. -/
theorem claim1_counterexample :
    (Services.merge_extraction_results [⟨1, [⟨"n/a", "A1", some ""⟩]⟩]).booths
        = [⟨"n/a", "A1", some ""⟩] ∧
    (Services.get_merge_statistics [⟨1, [⟨"n/a", "A1", some ""⟩]⟩]
        (Services.merge_extraction_results [⟨1, [⟨"n/a", "A1", some ""⟩]⟩])).merged_total
      = 1 := by
  refine ⟨by decide, by decide⟩

/-- C2 (counterexample): a later record whose raw company-name similarity
to the seed exceeds `0.9` is *not* added to the seed's group when the
normalized names fail the `0.85` rule: `"x international"` and
`"x internacional"` have raw similarity `14/15 > 0.9`, yet normalize to
`"x"` and `"x internacional"` (similarity `1/8`), so the sweep leaves them
in separate groups. -/
theorem claim2_counterexample :
    mkRat 9 10 <
      Services._calculate_similarity "x international" "x internacional" ∧
    Services._are_companies_similar "x international" "x internacional" = false ∧
    Services.boothGroups
        [⟨"x international", "", some ""⟩, ⟨"x internacional", "", some ""⟩]
      = [[⟨"x international", "", some ""⟩], [⟨"x internacional", "", some ""⟩]] := by
  refine ⟨by decide, by decide, by decide⟩

/-- C4 (counterexample): a record with an empty company name is *not*
grouped with a real record, even when both carry the same booth id — it
forms a singleton group. -/
theorem claim4_counterexample :
    Services.boothGroups [⟨"", "A1", some ""⟩, ⟨"Acme", "A1", some ""⟩]
      = [[⟨"", "A1", some ""⟩], [⟨"Acme", "A1", some ""⟩]] := by
  decide

/-- A record can only join a group when `_are_companies_similar` held, so
both normalized company names were nonempty. -/
theorem companies_similar_norms_ne {n1 n2 : String}
    (h : Services._are_companies_similar n1 n2 = true) :
    Services._normalize_company_name n1 ≠ "" ∧
    Services._normalize_company_name n2 ≠ "" := by
  by_cases hc : Services._normalize_company_name n1 = "" ∨
      Services._normalize_company_name n2 = ""
  · exfalso
    simp only [Services._are_companies_similar, if_pos hc] at h
    exact Bool.false_ne_true h
  · exact not_or.mp hc

/-- Fragment matches only hold when both normalized names have length at
least 3, hence are nonempty. -/
theorem fragment_norms_ne {s l : String}
    (h : Services._is_fragment_of s l = true) :
    Services._normalize_company_name s ≠ "" ∧
    Services._normalize_company_name l ≠ "" := by
  by_cases hraw : s = "" ∨ l = ""
  · exfalso
    simp only [Services._is_fragment_of, if_pos hraw] at h
    exact Bool.false_ne_true h
  · by_cases hlen : (Services._normalize_company_name s).length < 3 ∨
        (Services._normalize_company_name l).length < 3
    · exfalso
      simp only [Services._is_fragment_of, if_neg hraw, if_pos hlen] at h
      exact Bool.false_ne_true h
    · push_neg at hlen
      constructor <;> intro he <;> rw [he] at hlen <;> simp at hlen

/-- Every disjunct of the sweep's join condition forces both normalized
company names to be nonempty. -/
theorem joinCond_norms_ne {b1 b2 : BoothData}
    (h : Services.joinCond b1 b2 = true) :
    Services._normalize_company_name b1.company_name ≠ "" ∧
    Services._normalize_company_name b2.company_name ≠ "" := by
  cases hcm : Services._are_companies_similar b1.company_name b2.company_name with
  | true => exact companies_similar_norms_ne hcm
  | false =>
    have hf : Services._is_fragment_of b2.company_name b1.company_name = true := by
      simp only [Services.joinCond, hcm, Bool.false_and, Bool.false_or] at h
      exact h
    exact ⟨(fragment_norms_ne hf).2, (fragment_norms_ne hf).1⟩

/-- Every record gathered into a seed's group satisfied the join condition
against that seed. -/
theorem mem_gatherGroup {b1 b : BoothData} :
    ∀ (rest : List (Nat × BoothData)) (processed : List Nat),
      b ∈ (Services.gatherGroup b1 rest processed).1 →
      Services.joinCond b1 b = true := by
  intro rest
  induction rest with
  | nil => intro processed h; simp [Services.gatherGroup] at h
  | cons p rest ih =>
    intro processed h
    obtain ⟨j, b2⟩ := p
    simp only [Services.gatherGroup] at h
    split at h
    · exact ih _ h
    · split at h
      · rename_i hj
        rcases List.mem_cons.mp h with rfl | h'
        · exact hj
        · exact ih _ h'
      · exact ih _ h

/-- Every group the sweep emits is its seed followed by records that
satisfied the join condition against the seed. -/
theorem sweepAux_group_shape :
    ∀ (l : List (Nat × BoothData)) (processed : List Nat) (g : List BoothData),
      g ∈ Services.sweepAux l processed →
      ∃ seed tail, g = seed :: tail ∧ ∀ b ∈ tail, Services.joinCond seed b = true := by
  intro l
  induction l with
  | nil => intro _ _ h; simp [Services.sweepAux] at h
  | cons p rest ih =>
    intro processed g h
    obtain ⟨i, b1⟩ := p
    simp only [Services.sweepAux] at h
    split at h
    · exact ih _ _ h
    · rcases List.mem_cons.mp h with rfl | h'
      · exact ⟨b1, _, rfl, fun b hb => mem_gatherGroup _ _ hb⟩
      · exact ih _ _ h'

/-- C4 (amended): a record with an empty company name never participates
in grouping — the group containing it is always the singleton of that
record (and, by the final filter, it is excluded from output). -/
theorem claim4_amended (records : List BoothData) (g : List BoothData) (b : BoothData)
    (hg : g ∈ Services.boothGroups records) (hb : b ∈ g)
    (hempty : b.company_name = "") : g = [b] := by
  obtain ⟨seed, tail, rfl, htail⟩ := sweepAux_group_shape _ _ _ hg
  rcases List.mem_cons.mp hb with rfl | hbt
  · cases tail with
    | nil => rfl
    | cons t ts =>
      exfalso
      have hne := (joinCond_norms_ne (htail t (List.mem_cons_self _ _))).1
      rw [hempty, normalize_empty] at hne
      exact hne rfl
  · exfalso
    have hne := (joinCond_norms_ne (htail b hbt)).2
    rw [hempty, normalize_empty] at hne
    exact hne rfl

/-- C4 witness: concrete instance of `claim4_amended`. -/
theorem claim4_witness :
    ([⟨"", "A1", some ""⟩] : List BoothData) ∈
        Services.boothGroups [⟨"", "A1", some ""⟩, ⟨"Acme", "A1", some ""⟩] ∧
    (⟨"", "A1", some ""⟩ : BoothData) ∈ ([⟨"", "A1", some ""⟩] : List BoothData) ∧
    (BoothData.mk "" "A1" (some "")).company_name = "" ∧
    ([⟨"", "A1", some ""⟩] : List BoothData) = [⟨"", "A1", some ""⟩] :=
  ⟨by decide, by decide, by decide,
    claim4_amended [⟨"", "A1", some ""⟩, ⟨"Acme", "A1", some ""⟩]
      [⟨"", "A1", some ""⟩] ⟨"", "A1", some ""⟩ (by decide) (by decide) (by decide)⟩

/-- C5 (counterexample): exchanging two batches changes the set of
resolved company+booth identities.  The two records group together in
either order, tie on the completeness score, and the resolver keeps the
seed, so the surviving identity is `("abcd efgh","")` in one order and
`("abcd efgx","")` in the other. -/
theorem claim5_counterexample :
    ((Services.merge_extraction_results
        [⟨1, [⟨"abcd efgh", "", some ""⟩]⟩, ⟨1, [⟨"abcd efgx", "", some ""⟩]⟩]).booths.map
        (fun b => (b.company_name, b.booth)) = [("abcd efgh", "")]) ∧
    ((Services.merge_extraction_results
        [⟨1, [⟨"abcd efgx", "", some ""⟩]⟩, ⟨1, [⟨"abcd efgh", "", some ""⟩]⟩]).booths.map
        (fun b => (b.company_name, b.booth)) = [("abcd efgx", "")]) ∧
    ("abcd efgh", "") ∉ [(("abcd efgx", "") : String × String)] := by
  refine ⟨by decide, by decide, by decide⟩

/-- C5 (amended): batch *boundaries* carry no weight — merging `[B1, B2]`
is identical to merging the single concatenated batch — but batch *order*
does affect the resolved identity set (see the counterexample). -/
theorem claim5_amended (r1 r2 : ExtractionResult) :
    Services.merge_extraction_results [r1, r2]
      = Services.merge_extraction_results [⟨0, r1.booths ++ r2.booths⟩] := by
  unfold Services.merge_extraction_results
  rw [if_neg (by simp), if_neg (by simp)]
  simp

/-- C2 (amended): a later record is added to the seed's group when its raw
company-name similarity to the seed exceeds `0.9` *and* the normalized
company names also match under `_are_companies_similar` (the `0.85` rule):
the strict-similarity disjunct of the sweep is conjoined with
`company_match`. -/
theorem claim2_amended (b1 b2 : BoothData)
    (hmatch : Services._are_companies_similar b1.company_name b2.company_name = true)
    (hsim : mkRat 9 10 < Services._calculate_similarity b1.company_name b2.company_name) :
    Services.boothGroups [b1, b2] = [[b1, b2]] := by
  have hj : Services.joinCond b1 b2 = true := by
    simp [Services.joinCond, hmatch, hsim]
  simp [Services.boothGroups, Services.sweepAux, Services.gatherGroup, hj]

/-- A positive maximum of the scores of a group is attained by some
member. -/
theorem exists_max_attained :
    ∀ (l : List BoothData), 0 < (l.map Services.score).foldr max 0 →
      ∃ b ∈ l, (l.map Services.score).foldr max 0 ≤ Services.score b := by
  intro l
  induction l with
  | nil => intro h; simp at h
  | cons x xs ih =>
    intro h
    simp only [List.map_cons, List.foldr_cons]
    rcases le_or_lt ((xs.map Services.score).foldr max 0) (Services.score x) with hle | hlt
    · exact ⟨x, List.mem_cons_self _ _, max_le le_rfl hle⟩
    · have h0 : 0 < (xs.map Services.score).foldr max 0 :=
        lt_of_le_of_lt (Nat.zero_le _) hlt
      obtain ⟨b, hb, hMb⟩ := ih h0
      exact ⟨b, List.mem_cons_of_mem _ hb,
        le_trans (max_le (le_of_lt hlt) le_rfl) hMb⟩

/-- The best-booth loop of `_merge_booth_data` computes the earliest
record whose score attains the running maximum, provided the maximum beats
the incoming `best_score`; otherwise it keeps the incoming best. -/
theorem selectLoop_eq :
    ∀ (l : List BoothData) (best : BoothData) (bs : Nat),
      Services.selectLoop l best bs =
        if bs < (l.map Services.score).foldr max 0 then
          (l.find? fun b =>
              decide ((l.map Services.score).foldr max 0 ≤ Services.score b)).getD best
        else best := by
  intro l
  induction l with
  | nil => intro best bs; simp [Services.selectLoop]
  | cons x xs ih =>
    intro best bs
    simp only [Services.selectLoop, List.map_cons, List.foldr_cons, List.find?_cons]
    rcases le_or_lt ((xs.map Services.score).foldr max 0) (Services.score x) with hle | hlt
    · -- the head attains the maximum of the whole list
      have hM : max (Services.score x) ((xs.map Services.score).foldr max 0)
          = Services.score x := max_eq_left hle
      have hxt : decide (Services.score x ≤ Services.score x) = true :=
        decide_eq_true le_rfl
      simp only [hM, hxt]
      by_cases hbs : bs < Services.score x
      · -- the loop takes the head; find? also returns the head
        rw [if_pos hbs, if_pos hbs, ih x (Services.score x),
          if_neg (not_lt_of_le hle)]
        rfl
      · -- nothing in the list beats bs
        rw [if_neg hbs, if_neg hbs, ih best bs,
          if_neg (by push_neg at hbs; omega)]
    · -- the maximum lives in the tail and exceeds the head's score
      have hM : max (Services.score x) ((xs.map Services.score).foldr max 0)
          = (xs.map Services.score).foldr max 0 := max_eq_right (le_of_lt hlt)
      have hxfail :
          decide ((xs.map Services.score).foldr max 0 ≤ Services.score x) = false :=
        decide_eq_false (not_le_of_lt hlt)
      simp only [hM, hxfail]
      by_cases hbs : bs < Services.score x
      · rw [if_pos hbs, if_pos (lt_trans hbs hlt), ih x (Services.score x), if_pos hlt]
        have h0 : 0 < (xs.map Services.score).foldr max 0 :=
          lt_of_le_of_lt (Nat.zero_le _) hlt
        obtain ⟨b, hb, hMb⟩ := exists_max_attained xs h0
        have hsome : (xs.find? fun b =>
            decide ((xs.map Services.score).foldr max 0 ≤ Services.score b)).isSome := by
          rw [List.find?_isSome]
          exact ⟨b, hb, by simpa using hMb⟩
        obtain ⟨v, hv⟩ := Option.isSome_iff_exists.mp hsome
        rw [hv]
        rfl
      · rw [if_neg hbs, ih best bs]

/-- The source's guarded completeness score equals the claim's formula. -/
theorem score_eq_specScore (b : BoothData) : Services.score b = specScore b := by
  obtain ⟨c, bo, sz⟩ := b
  have trimEmpty : pyTrim "" = "" := rfl
  simp only [Services.score, specScore]
  congr 1
  · congr 1
    · by_cases hc : c = ""
      · subst hc; simp [trimEmpty]
      · by_cases hl : 0 < (pyTrim c).length
        · rw [if_pos ⟨hc, hl⟩]
        · rw [if_neg fun h => hl h.2]; omega
    · by_cases hb : bo = ""
      · subst hb; simp [trimEmpty]
      · by_cases hl : 0 < (pyTrim bo).length
        · rw [if_pos ⟨hb, hl⟩]; ring
        · rw [if_neg fun h => hl h.2]; omega
  · cases sz with
    | none => simp [trimEmpty]
    | some s =>
      show (if s ≠ "" ∧ 0 < (pyTrim s).length then 10 else 0)
        = if (pyTrim ((some s).getD "")).length ≠ 0 then 10 else 0
      simp only [Option.getD_some]
      by_cases hs : s = ""
      · subst hs; simp [trimEmpty]
      · by_cases hl : 0 < (pyTrim s).length
        · rw [if_pos ⟨hs, hl⟩, if_pos (by omega)]
        · rw [if_neg (by tauto), if_neg (by omega)]

/-- The first record attaining the group's maximal score always exists:
`find?` succeeds on a nonempty group. -/
theorem find_specBase (b0 : BoothData) (tail : List BoothData) :
    ((b0 :: tail).find? fun b =>
        decide (groupMaxScore (b0 :: tail) ≤ Services.score b))
      = some (specBase (b0 :: tail)) := by
  by_cases h0 : 0 < groupMaxScore (b0 :: tail)
  · obtain ⟨b, hb, hMb⟩ :=
      exists_max_attained (b0 :: tail) (by simpa [groupMaxScore] using h0)
    have hsome : ((b0 :: tail).find? fun x =>
        decide (groupMaxScore (b0 :: tail) ≤ Services.score x)).isSome := by
      rw [List.find?_isSome]
      exact ⟨b, hb, by simpa [groupMaxScore] using hMb⟩
    obtain ⟨v, hv⟩ := Option.isSome_iff_exists.mp hsome
    rw [hv, specBase, hv]
    rfl
  · have hhead : decide (groupMaxScore (b0 :: tail) ≤ Services.score b0) = true :=
      decide_eq_true (by omega)
    have hfind : ((b0 :: tail).find? fun b =>
        decide (groupMaxScore (b0 :: tail) ≤ Services.score b)) = some b0 := by
      simp only [List.find?_cons, hhead]
    rw [hfind, specBase, hfind]
    rfl

/-- The best-booth loop started at the head with `best_score = 0` computes
exactly the claim's base: the earliest record attaining the group's
maximal completeness score. -/
theorem selectLoop_spec (b0 : BoothData) (tail : List BoothData) :
    Services.selectLoop (b0 :: tail) b0 0 = specBase (b0 :: tail) := by
  rw [selectLoop_eq]
  by_cases h0 : 0 < ((b0 :: tail).map Services.score).foldr max 0
  · rw [if_pos h0]
    have := find_specBase b0 tail
    simp only [groupMaxScore] at this
    rw [this]
    rfl
  · rw [if_neg h0]
    have hhead : decide (groupMaxScore (b0 :: tail) ≤ Services.score b0) = true :=
      decide_eq_true (by simp only [groupMaxScore]; omega)
    have hfind : ((b0 :: tail).find? fun b =>
        decide (groupMaxScore (b0 :: tail) ≤ Services.score b)) = some b0 := by
      simp only [List.find?_cons, hhead]
    rw [specBase, hfind]
    rfl

/-- C6: on every group of two or more records `_merge_booth_data` uses as
base the record with the highest completeness score (ties broken by
earliest occurrence, witnessed by `find?`), where the score is the claim's
`len(trim(company)) + 2*len(trim(booth)) + 10·[size nonempty]` formula. -/
theorem claim6_resolver :
    (∀ b, Services.score b = specScore b) ∧
    ∀ (g : List BoothData), 2 ≤ g.length →
      Services._merge_booth_data g
          = some (Services.fillLoop g
              ⟨(specBase g).company_name, (specBase g).booth, (specBase g).size⟩) ∧
      (g.find? fun b => decide (groupMaxScore g ≤ Services.score b))
          = some (specBase g) := by
  refine ⟨score_eq_specScore, ?_⟩
  intro g hg
  cases g with
  | nil => simp at hg
  | cons b0 g' =>
    cases g' with
    | nil => simp at hg
    | cons b1 rest =>
      refine ⟨?_, find_specBase b0 (b1 :: rest)⟩
      simp only [Services._merge_booth_data]
      rw [selectLoop_spec b0 (b1 :: rest)]

/-- C6 witness: the resolver on the spec's completeness example. -/
theorem claim6_witness :
    2 ≤ ([⟨"Acme", "", some ""⟩, ⟨"Acme", "A1", some "10 sq.m"⟩] : List BoothData).length ∧
    (Services._merge_booth_data [⟨"Acme", "", some ""⟩, ⟨"Acme", "A1", some "10 sq.m"⟩]
        = some (Services.fillLoop
            [⟨"Acme", "", some ""⟩, ⟨"Acme", "A1", some "10 sq.m"⟩]
            ⟨(specBase [⟨"Acme", "", some ""⟩, ⟨"Acme", "A1", some "10 sq.m"⟩]).company_name,
              (specBase [⟨"Acme", "", some ""⟩, ⟨"Acme", "A1", some "10 sq.m"⟩]).booth,
              (specBase [⟨"Acme", "", some ""⟩, ⟨"Acme", "A1", some "10 sq.m"⟩]).size⟩) ∧
      (([⟨"Acme", "", some ""⟩, ⟨"Acme", "A1", some "10 sq.m"⟩] : List BoothData).find? fun b =>
          decide (groupMaxScore [⟨"Acme", "", some ""⟩, ⟨"Acme", "A1", some "10 sq.m"⟩]
            ≤ Services.score b))
        = some (specBase [⟨"Acme", "", some ""⟩, ⟨"Acme", "A1", some "10 sq.m"⟩])) ∧
    Services._merge_booth_data [⟨"Acme", "", some ""⟩, ⟨"Acme", "A1", some "10 sq.m"⟩]
      = some ⟨"Acme", "A1", some "10 sq.m"⟩ :=
  ⟨by decide, claim6_resolver.2 _ (by decide), by decide⟩

/-- C2 witness: concrete instance of `claim2_amended`. -/
theorem claim2_witness :
    Services._are_companies_similar "Acme Corp" "Acme Corp." = true ∧
    mkRat 9 10 < Services._calculate_similarity "Acme Corp" "Acme Corp." ∧
    Services.boothGroups [⟨"Acme Corp", "", some ""⟩, ⟨"Acme Corp.", "", some ""⟩]
      = [[⟨"Acme Corp", "", some ""⟩, ⟨"Acme Corp.", "", some ""⟩]] :=
  ⟨by decide, by decide,
    claim2_amended ⟨"Acme Corp", "", some ""⟩ ⟨"Acme Corp.", "", some ""⟩
      (by decide) (by decide)⟩

/-- The sweep opens at most one group per record. -/
theorem sweepAux_length_le :
    ∀ (l : List (Nat × BoothData)) (processed : List Nat),
      (Services.sweepAux l processed).length ≤ l.length := by
  intro l
  induction l with
  | nil => intro processed; simp [Services.sweepAux]
  | cons p rest ih =>
    intro processed
    obtain ⟨i, b1⟩ := p
    simp only [Services.sweepAux]
    split
    · exact le_trans (ih _) (Nat.le_succ _)
    · simpa using Nat.succ_le_succ (ih _)

/-- The merged output never has more records than the flattened input. -/
theorem merge_booths_length_le (results : List ExtractionResult) :
    (Services.merge_extraction_results results).booths.length
      ≤ ((results.map (·.booths)).flatten).length := by
  unfold Services.merge_extraction_results
  split
  · simp
  · unfold Services.mergeAllBooths
    split
    · simp
    · refine le_trans (List.length_filterMap_le _ _) ?_
      refine le_trans (sweepAux_length_le _ _) ?_
      simp [Services.boothGroups]

/-- Merging always sets `total_booths` to the length of
its `booths` list (shared helper; also the content of C10). -/
theorem merge_total_eq_length (results : List ExtractionResult) :
    (Services.merge_extraction_results results).total_booths
      = ((Services.merge_extraction_results results).booths.length : Int) := by
  unfold Services.merge_extraction_results Services.mergeAllBooths
  split
  · rfl
  · split <;> rfl

/-- On well-formed batches the summed `total_booths` fields equal the
flattened record count. -/
theorem original_total_eq (results : List ExtractionResult)
    (h : ∀ r ∈ results, r.total_booths = (r.booths.length : Int)) :
    (results.map (·.total_booths)).sum
      = (((results.map (·.booths)).flatten).length : Int) := by
  induction results with
  | nil => simp
  | cons r rs ih =>
    simp only [List.map_cons, List.sum_cons, List.flatten_cons, List.length_append]
    rw [h r (List.mem_cons_self _ _), ih fun x hx => h x (List.mem_cons_of_mem _ hx)]
    push_cast
    ring

/-- C8: on every well-formed input (each batch's `total_booths` field equals
its record count), the merge statistics satisfy
`original_total == merged_total + duplicates_removed`,
`0 ≤ duplicate_rate ≤ 1`, and `duplicate_rate = 0` when
`original_total = 0`. -/
theorem claim8_statistics (results : List ExtractionResult)
    (h : ∀ r ∈ results, r.total_booths = (r.booths.length : Int)) :
    (Services.get_merge_statistics results
        (Services.merge_extraction_results results)).original_total
      = (Services.get_merge_statistics results
          (Services.merge_extraction_results results)).merged_total
        + (Services.get_merge_statistics results
            (Services.merge_extraction_results results)).duplicates_removed ∧
    0 ≤ (Services.get_merge_statistics results
        (Services.merge_extraction_results results)).duplicate_rate ∧
    (Services.get_merge_statistics results
        (Services.merge_extraction_results results)).duplicate_rate ≤ 1 ∧
    ((Services.get_merge_statistics results
        (Services.merge_extraction_results results)).original_total = 0 →
      (Services.get_merge_statistics results
          (Services.merge_extraction_results results)).duplicate_rate = 0) := by
  have hmerged0 : 0 ≤ (Services.merge_extraction_results results).total_booths := by
    rw [merge_total_eq_length]
    exact Int.ofNat_nonneg _
  have hle : (Services.merge_extraction_results results).total_booths
      ≤ (results.map (·.total_booths)).sum := by
    rw [merge_total_eq_length, original_total_eq results h]
    exact_mod_cast merge_booths_length_le results
  simp only [Services.get_merge_statistics]
  refine ⟨by ring, ?_, ?_, ?_⟩
  · split
    · rename_i hpos
      apply div_nonneg
      · have hsub : (0 : Int) ≤ (results.map (·.total_booths)).sum
            - (Services.merge_extraction_results results).total_booths := by omega
        exact_mod_cast hsub
      · exact_mod_cast le_of_lt hpos
    · exact le_refl 0
  · split
    · rename_i hpos
      rw [div_le_one (by exact_mod_cast hpos)]
      have hsub : ((results.map (·.total_booths)).sum
            - (Services.merge_extraction_results results).total_booths : Int)
          ≤ (results.map (·.total_booths)).sum := by omega
      exact_mod_cast hsub
    · exact zero_le_one
  · intro h0
    rw [if_neg (by omega)]

/-- C8 witness: concrete instance of `claim8_statistics`. -/
theorem claim8_witness :
    (∀ r ∈ ([⟨1, [⟨"Acme", "A1", some ""⟩]⟩] : List ExtractionResult),
        r.total_booths = (r.booths.length : Int)) ∧
    ((Services.get_merge_statistics [⟨1, [⟨"Acme", "A1", some ""⟩]⟩]
        (Services.merge_extraction_results [⟨1, [⟨"Acme", "A1", some ""⟩]⟩])).original_total
      = (Services.get_merge_statistics [⟨1, [⟨"Acme", "A1", some ""⟩]⟩]
          (Services.merge_extraction_results [⟨1, [⟨"Acme", "A1", some ""⟩]⟩])).merged_total
        + (Services.get_merge_statistics [⟨1, [⟨"Acme", "A1", some ""⟩]⟩]
            (Services.merge_extraction_results [⟨1, [⟨"Acme", "A1", some ""⟩]⟩])).duplicates_removed ∧
    0 ≤ (Services.get_merge_statistics [⟨1, [⟨"Acme", "A1", some ""⟩]⟩]
        (Services.merge_extraction_results [⟨1, [⟨"Acme", "A1", some ""⟩]⟩])).duplicate_rate ∧
    (Services.get_merge_statistics [⟨1, [⟨"Acme", "A1", some ""⟩]⟩]
        (Services.merge_extraction_results [⟨1, [⟨"Acme", "A1", some ""⟩]⟩])).duplicate_rate ≤ 1 ∧
    ((Services.get_merge_statistics [⟨1, [⟨"Acme", "A1", some ""⟩]⟩]
        (Services.merge_extraction_results [⟨1, [⟨"Acme", "A1", some ""⟩]⟩])).original_total = 0 →
      (Services.get_merge_statistics [⟨1, [⟨"Acme", "A1", some ""⟩]⟩]
          (Services.merge_extraction_results [⟨1, [⟨"Acme", "A1", some ""⟩]⟩])).duplicate_rate = 0)) :=
  ⟨by decide, claim8_statistics _ (by decide)⟩

/-! ## Size-coalescing lemmas (C9): a `None` size behaves exactly like an
empty string throughout the merge pipeline. -/

/-- Structure eta for `BoothData`. -/
theorem BoothData.eta (b : BoothData) :
    (⟨b.company_name, b.booth, b.size⟩ : BoothData) = b := rfl

theorem coalesce_company (b : BoothData) :
    (coalesceSize b).company_name = b.company_name := rfl

theorem coalesce_booth (b : BoothData) :
    (coalesceSize b).booth = b.booth := rfl

/-- Python truthiness of `size` is invariant under `None ↦ ""`. -/
theorem sizeTruthy_coalesce (b : BoothData) :
    sizeTruthy (coalesceSize b).size = sizeTruthy b.size := by
  obtain ⟨c, bo, sz⟩ := b
  cases sz <;> simp [coalesceSize, sizeTruthy]

/-- The sweep's join condition never reads `size`. -/
theorem joinCond_coalesce (a b : BoothData) :
    Services.joinCond (coalesceSize a) (coalesceSize b) = Services.joinCond a b := rfl

/-- The completeness score is invariant under `None ↦ ""` sizes. -/
theorem score_coalesce (b : BoothData) :
    Services.score (coalesceSize b) = Services.score b := by
  obtain ⟨c, bo, sz⟩ := b
  cases sz with
  | none => simp [Services.score, coalesceSize]
  | some s => rfl

theorem gatherGroup_coalesce (b1 : BoothData) :
    ∀ (rest : List (Nat × BoothData)) (processed : List Nat),
      Services.gatherGroup (coalesceSize b1)
          (rest.map fun p => (p.1, coalesceSize p.2)) processed
        = ((Services.gatherGroup b1 rest processed).1.map coalesceSize,
            (Services.gatherGroup b1 rest processed).2) := by
  intro rest
  induction rest with
  | nil => intro processed; rfl
  | cons p rest ih =>
    intro processed
    obtain ⟨j, b2⟩ := p
    simp only [List.map_cons, Services.gatherGroup, joinCond_coalesce]
    split
    · exact ih _
    · split
      · simp [ih]
      · exact ih _

theorem sweepAux_coalesce :
    ∀ (l : List (Nat × BoothData)) (processed : List Nat),
      Services.sweepAux (l.map fun p => (p.1, coalesceSize p.2)) processed
        = (Services.sweepAux l processed).map (List.map coalesceSize) := by
  intro l
  induction l with
  | nil => intro processed; rfl
  | cons p rest ih =>
    intro processed
    obtain ⟨i, b1⟩ := p
    simp only [List.map_cons, Services.sweepAux]
    split
    · exact ih _
    · simp [gatherGroup_coalesce, ih]

/-- Enumeration commutes with mapping over the records. -/
theorem enumFrom_map_coalesce (l : List BoothData) :
    ∀ n, (l.map coalesceSize).enumFrom n
      = (l.enumFrom n).map fun p => (p.1, coalesceSize p.2) := by
  induction l with
  | nil => intro n; rfl
  | cons x xs ih => intro n; simp [List.enumFrom, ih]

theorem boothGroups_coalesce (all : List BoothData) :
    Services.boothGroups (all.map coalesceSize)
      = (Services.boothGroups all).map (List.map coalesceSize) := by
  unfold Services.boothGroups
  rw [List.enum, enumFrom_map_coalesce, sweepAux_coalesce]

theorem selectLoop_coalesce :
    ∀ (l : List BoothData) (best : BoothData) (bs : Nat),
      Services.selectLoop (l.map coalesceSize) (coalesceSize best) bs
        = coalesceSize (Services.selectLoop l best bs) := by
  intro l
  induction l with
  | nil => intro best bs; rfl
  | cons x xs ih =>
    intro best bs
    simp only [List.map_cons, Services.selectLoop, score_coalesce]
    split
    · exact ih _ _
    · exact ih _ _

theorem fillStep_coalesce (m b : BoothData) :
    Services.fillStep (coalesceSize m) (coalesceSize b)
      = coalesceSize (Services.fillStep m b) := by
  obtain ⟨mc, mb, ms⟩ := m
  obtain ⟨bc, bb, bs⟩ := b
  simp only [Services.fillStep, coalesceSize, sizeTruthy]
  cases ms <;> cases bs <;> split_ifs <;> simp_all [sizeTruthy]

theorem fillLoop_coalesce :
    ∀ (l : List BoothData) (m : BoothData),
      Services.fillLoop (l.map coalesceSize) (coalesceSize m)
        = coalesceSize (Services.fillLoop l m) := by
  intro l
  induction l with
  | nil => intro m; rfl
  | cons b rest ih =>
    intro m
    simp only [List.map_cons, Services.fillLoop, fillStep_coalesce]
    exact ih _

theorem merge_booth_data_coalesce (g : List BoothData) :
    Services._merge_booth_data (g.map coalesceSize)
      = (Services._merge_booth_data g).map coalesceSize := by
  match g with
  | [] => rfl
  | [b] => rfl
  | b0 :: b1 :: rest =>
    have hmap : coalesceSize b0 :: coalesceSize b1 :: List.map coalesceSize rest
        = (b0 :: b1 :: rest).map coalesceSize := rfl
    simp only [List.map_cons, Services._merge_booth_data, Option.map_some']
    rw [hmap, selectLoop_coalesce (b0 :: b1 :: rest) b0 0, BoothData.eta,
      BoothData.eta, fillLoop_coalesce]

/-- The keep-if-company-nonempty filter over resolved groups commutes with
size coalescing. -/
theorem filterMap_keep_coalesce (groups : List (List BoothData)) :
    (groups.map (List.map coalesceSize)).filterMap (fun group =>
        match Services._merge_booth_data group with
        | some merged_booth =>
          if merged_booth.company_name ≠ "" then some merged_booth else none
        | none => none)
      = (groups.filterMap (fun group =>
          match Services._merge_booth_data group with
          | some merged_booth =>
            if merged_booth.company_name ≠ "" then some merged_booth else none
          | none => none)).map coalesceSize := by
  induction groups with
  | nil => rfl
  | cons g gs ih =>
    simp only [List.map_cons, List.filterMap_cons]
    rw [merge_booth_data_coalesce]
    cases hm : Services._merge_booth_data g with
    | none => simpa using ih
    | some m =>
      simp only [Option.map_some']
      by_cases hc : m.company_name ≠ ""
      · rw [if_pos (by simpa [coalesce_company] using hc), if_pos hc]
        rw [List.map_cons, ih]
      · rw [if_neg (by simpa [coalesce_company] using hc), if_neg hc]
        exact ih

/-- C9 (counterexample): the failure at a non-iterable `results` argument
is Python's built-in `TypeError`, not a distinct `InvalidInput` error
kind — no `InvalidInput` kind exists anywhere in the code. -/
theorem claim9_counterexample :
    mergeChecked PyBatches.nonIterable = Except.error MergeError.typeError ∧
    MergeError.typeError ≠ MergeError.invalidInput :=
  ⟨rfl, by decide⟩

theorem mergeAllBooths_coalesce (all : List BoothData) :
    Services.mergeAllBooths (all.map coalesceSize)
      = ⟨(Services.mergeAllBooths all).total_booths,
          (Services.mergeAllBooths all).booths.map coalesceSize⟩ := by
  unfold Services.mergeAllBooths
  by_cases hall : all = []
  · subst hall; rfl
  · rw [if_neg (by simpa using hall), if_neg hall]
    dsimp only
    rw [boothGroups_coalesce, filterMap_keep_coalesce]
    simp

/-- C9 (amended): the merge driver is total on every typed batch list —
malformed record fields are data, not errors: a `None` `size` (the only
field Pydantic lets be `None`) is treated exactly like the empty string,
and the only failure is a built-in `TypeError` on a non-iterable
`results` argument. -/
theorem claim9_amended :
    (∀ results, mergeChecked (PyBatches.batches results)
        = Except.ok (Services.merge_extraction_results results)) ∧
    mergeChecked PyBatches.nonIterable = Except.error MergeError.typeError ∧
    ∀ results, Services.merge_extraction_results (results.map coalesceBatch)
        = coalesceBatch (Services.merge_extraction_results results) := by
  refine ⟨fun results => rfl, rfl, fun results => ?_⟩
  unfold Services.merge_extraction_results
  by_cases hres : results = []
  · subst hres; rfl
  · rw [if_neg (by simpa using hres), if_neg hres]
    have hcomp : (fun r => ExtractionResult.booths r) ∘ coalesceBatch
        = (List.map coalesceSize) ∘ fun r => ExtractionResult.booths r := rfl
    have hflat : ((results.map coalesceBatch).map (·.booths)).flatten
        = ((results.map (·.booths)).flatten).map coalesceSize := by
      rw [List.map_map, hcomp, ← List.map_map, List.map_flatten]
    rw [hflat, mergeAllBooths_coalesce]
    rfl

/-! ## String-trimming lemmas (C1): trimming is idempotent and commutes
with ASCII lowercasing. -/

/-- Lowercasing never creates or destroys whitespace. -/
theorem isWhitespace_toLower (c : Char) :
    c.toLower.isWhitespace = c.isWhitespace := by
  simp only [Char.toLower]
  split
  · rename_i h
    obtain ⟨h1, h2⟩ := h
    have hws : c.isWhitespace = false := by
      cases hw : c.isWhitespace
      · rfl
      · exfalso
        simp only [Char.isWhitespace, Bool.or_eq_true, decide_eq_true_eq] at hw
        rcases hw with ((h' | h') | h') | h' <;> subst h' <;> revert h1 <;> decide
    rw [hws]
    obtain ⟨n, hn⟩ : ∃ n, Char.toNat c = n := ⟨_, rfl⟩
    rw [hn] at h1 h2 ⊢
    interval_cases n <;> decide
  · rfl

/-- A prefix of a list already free of a leading `p`-run is itself free of
a leading `p`-run. -/
theorem dropWhile_eq_self_of_isPrefixOf {p : Char → Bool} {l m : List Char}
    (hm : m.dropWhile p = m) (hpre : l <+: m) : l.dropWhile p = l := by
  cases l with
  | nil => rfl
  | cons a t =>
    cases m with
    | nil => simp at hpre
    | cons b s =>
      obtain ⟨rfl, -⟩ := List.cons_prefix_cons.mp hpre
      by_cases hb : p a
      · exfalso
        rw [List.dropWhile_cons, if_pos hb] at hm
        have hlen := congrArg List.length hm
        have hle := (List.dropWhile_suffix (l := s) p).length_le
        simp at hlen
        omega
      · rw [List.dropWhile_cons, if_neg hb]

/-- Unfolding: `pyStripList` is `dropWhile` from the left then from the right. -/
theorem pyStripList_eq (p : Char → Bool) (l : List Char) :
    pyStripList p l = (l.dropWhile p).rdropWhile p := rfl

/-- Python's `strip` is idempotent. -/
theorem pyStripList_idem (p : Char → Bool) (l : List Char) :
    pyStripList p (pyStripList p l) = pyStripList p l := by
  have hpre := List.rdropWhile_prefix p (List.dropWhile p l)
  rw [pyStripList_eq, pyStripList_eq,
    dropWhile_eq_self_of_isPrefixOf (List.dropWhile_idempotent _ _) hpre,
    List.rdropWhile_idempotent]

/-- Trimming is idempotent. -/
theorem pyTrim_pyTrim (s : String) : pyTrim (pyTrim s) = pyTrim s := by
  show (⟨pyStripList Char.isWhitespace (pyStripList Char.isWhitespace s.data)⟩ : String)
    = ⟨pyStripList Char.isWhitespace s.data⟩
  rw [pyStripList_idem]

/-- Stripping whitespace commutes with ASCII lowercasing. -/
theorem pyStripList_map_toLower (l : List Char) :
    pyStripList Char.isWhitespace (l.map Char.toLower)
      = (pyStripList Char.isWhitespace l).map Char.toLower := by
  have hpf : (Char.isWhitespace ∘ Char.toLower) = Char.isWhitespace :=
    funext isWhitespace_toLower
  unfold pyStripList
  rw [List.dropWhile_map, hpf, ← List.map_reverse, List.dropWhile_map, hpf,
    ← List.map_reverse]

/-- Trimming commutes with `strToLower`. -/
theorem pyTrim_strToLower (s : String) :
    pyTrim (strToLower s) = strToLower (pyTrim s) := by
  show (⟨pyStripList Char.isWhitespace (s.data.map Char.toLower)⟩ : String)
    = ⟨(pyStripList Char.isWhitespace s.data).map Char.toLower⟩
  rw [pyStripList_map_toLower]

/-- Every record the utils merger's inner loop appends has a nonempty
trimmed company name that is not a case-insensitive placeholder. -/
theorem processBooths_inv :
    ∀ (l : List BoothData) (seen : List String) (acc : List BoothData),
      (∀ b ∈ acc, pyTrim b.company_name ≠ "" ∧
        strToLower (pyTrim b.company_name) ∉ (["none", "null", "n/a"] : List String)) →
      ∀ b ∈ (Utils.processBooths l seen acc).2,
        pyTrim b.company_name ≠ "" ∧
        strToLower (pyTrim b.company_name) ∉ (["none", "null", "n/a"] : List String) := by
  intro l
  induction l with
  | nil => intro seen acc hacc b hb; exact hacc b hb
  | cons x rest ih =>
    intro seen acc hacc b hb
    simp only [Utils.processBooths] at hb
    split at hb
    · exact ih _ _ hacc b hb
    · rename_i hguard
      split at hb
      · refine ih _ _ ?_ b hb
        intro b' hb'
        rcases List.mem_append.mp hb' with h' | h'
        · exact hacc b' h'
        · push_neg at hguard
          rcases List.mem_singleton.mp h' with rfl
          refine ⟨?_, ?_⟩
          · show pyTrim (pyTrim x.company_name) ≠ ""
            rw [pyTrim_pyTrim]
            exact hguard.1
          · show strToLower (pyTrim (pyTrim x.company_name)) ∉ _
            rw [pyTrim_pyTrim]
            intro hmem
            apply hguard.2
            rw [pyTrim_strToLower, pyTrim_pyTrim]
            exact List.mem_cons_of_mem _ hmem
      · exact ih _ _ hacc b hb

/-- The invariant of `processBooths_inv` threads through all batches. -/
theorem collectAll_inv :
    ∀ (results : List ExtractionResult) (seen : List String) (acc : List BoothData),
      (∀ b ∈ acc, pyTrim b.company_name ≠ "" ∧
        strToLower (pyTrim b.company_name) ∉ (["none", "null", "n/a"] : List String)) →
      ∀ b ∈ Utils.collectAll results seen acc,
        pyTrim b.company_name ≠ "" ∧
        strToLower (pyTrim b.company_name) ∉ (["none", "null", "n/a"] : List String) := by
  intro results
  induction results with
  | nil => intro seen acc hacc b hb; exact hacc b hb
  | cons r rest ih =>
    intro seen acc hacc b hb
    simp only [Utils.collectAll] at hb
    exact ih _ _ (processBooths_inv _ _ _ hacc) b hb

/-- C1 (amended): the filtering merger of `utils/merger.py` — the one
`main.py` instantiates — never emits a record whose trimmed company name
is empty or a case-insensitive placeholder, and returns `total_booths = 0`
on the `n/a` batch; the grouping merger of `services/result_merger.py`
only drops records whose resolved `company_name` is the empty string (see
the counterexample). -/
theorem claim1_amended :
    (∀ (results : List ExtractionResult) (b : BoothData),
        b ∈ (Utils.merge_extraction_results results).booths →
        pyTrim b.company_name ≠ "" ∧
        strToLower (pyTrim b.company_name) ∉ (["none", "null", "n/a"] : List String)) ∧
    (Utils.merge_extraction_results [⟨1, [⟨"n/a", "A1", some ""⟩]⟩]).total_booths = 0 := by
  constructor
  · intro results b hb
    simp only [Utils.merge_extraction_results] at hb
    have hb' : b ∈ Utils.collectAll results [] [] :=
      (List.perm_insertionSort Utils.sortRel (Utils.collectAll results [] [])).mem_iff.mp hb
    exact collectAll_inv results [] [] (by intro b' hb'; simp at hb') b hb'
  · decide

/-- C1 witness: concrete instance of `claim1_amended` on a clean record. -/
theorem claim1_witness :
    (⟨"Acme", "A1", some ""⟩ : BoothData) ∈
        (Utils.merge_extraction_results [⟨1, [⟨"Acme", "A1", some ""⟩]⟩]).booths ∧
    (pyTrim "Acme" ≠ "" ∧
      strToLower (pyTrim "Acme") ∉ (["none", "null", "n/a"] : List String)) :=
  ⟨by decide,
    claim1_amended.1 [⟨1, [⟨"Acme", "A1", some ""⟩]⟩] ⟨"Acme", "A1", some ""⟩ (by decide)⟩

end StallScan
